import Mathlib

/-!
Verification of the runebird background dispatch core: the token-bucket
rate limiter with its delayed retry queue (`internal/rate/rate.go`) and the
time-based task scheduler (`internal/scheduler`).

Time is modelled in seconds on the monotonic clock as a rational number.
Token balances are rationals (Go `float64`; the quantities involved are
exact in ℚ). The limiter in `rate.go` delegates to `golang.org/x/time/rate`;
its `ReserveN` / `Reservation.CancelAt` / `WaitN` semantics are embedded
faithfully below (finite positive limit, no context deadline, which is how
`rate.go` always uses them: `New` enforces `PerHour > 0` and `Burst > 0`,
and the context comes from `context.Background`).
-/

namespace Runebird

/-- State of `rate.Limiter`'s underlying token bucket (`x/time/rate.Limiter`):
refill rate in tokens per second, burst capacity, current token balance,
the time of the last state update, and the time of the latest reservation
event (`lastEvent`). -/
structure LimState where
  limit : ℚ
  burst : ℕ
  tokens : ℚ
  last : ℚ
  lastEvent : ℚ
deriving Repr, DecidableEq

/-- `Limiter.advance`: lazily accrue tokens for the time elapsed since the
last update, capped at `burst`; the result has `last = t`. -/
def advance (s : LimState) (t : ℚ) : LimState :=
  let last := if t < s.last then t else s.last
  let tokens := min (s.burst : ℚ) (s.tokens + (t - last) * s.limit)
  { s with tokens := tokens, last := t }

/-- The data of an `x/time/rate.Reservation` that the code observes:
whether the reservation succeeded, how many tokens it holds, and the time
at which it may act (`Delay() = timeToAct - now`). -/
structure Reservation where
  ok : Bool
  tokensRes : ℕ
  timeToAct : ℚ
deriving Repr, DecidableEq

/-- `Limiter.reserveN(t, n)` with an unbounded `maxFutureReserve`
(`ReserveN`, and `WaitN` under a context with no deadline): accrue lazily,
debit `n`, compute the wait needed to reach a non-negative balance; the
reservation succeeds iff `n ≤ burst`, and only then is the new state
stored. -/
def reserveN (s : LimState) (t : ℚ) (n : ℕ) : Reservation × LimState :=
  let sAdv := advance s t
  let tokens := sAdv.tokens - (n : ℚ)
  let waitDuration := if tokens < 0 then (-tokens) / s.limit else 0
  if n ≤ s.burst then
    let r : Reservation := { ok := true, tokensRes := n, timeToAct := t + waitDuration }
    (r, { sAdv with tokens := tokens, lastEvent := r.timeToAct })
  else
    ({ ok := false, tokensRes := 0, timeToAct := t }, s)

/-- `Reservation.CancelAt(t)`: return the reservation's tokens to the
bucket, less any tokens already granted to later reservations, capped at
`burst`; a reservation whose `timeToAct` has passed restores nothing. -/
def cancelAt (r : Reservation) (s : LimState) (t : ℚ) : LimState :=
  if r.ok = false then s
  else if r.tokensRes = 0 ∨ r.timeToAct < t then s
  else
    let restore := (r.tokensRes : ℚ) - (s.lastEvent - r.timeToAct) * s.limit
    if restore ≤ 0 then s
    else
      let sAdv := advance s t
      let tokens := min (s.burst : ℚ) (sAdv.tokens + restore)
      let lastEvent :=
        if r.timeToAct = s.lastEvent then
          let prevEvent := r.timeToAct + (-(r.tokensRes : ℚ)) / s.limit
          if ¬ prevEvent < t then prevEvent else s.lastEvent
        else s.lastEvent
      { sAdv with tokens := tokens, lastEvent := lastEvent }

/-- `Limiter.CanSend` (`rate.go:87-98`): reserve one token at `t`; if the
reservation needs no delay, keep it and report `true`; otherwise cancel the
reservation and report `false`. -/
def canSend (s : LimState) (t : ℚ) : Bool × LimState :=
  let (r, s1) := reserveN s t 1
  if r.ok then
    if r.timeToAct - t ≤ 0 then (true, s1)
    else (false, cancelAt r s1 t)
  else (false, s1)

/-- Outcome of a blocking `WaitN` call. -/
inductive WaitResult where
  | ok
  | cancelled
  | exceedsBurst
deriving Repr, DecidableEq

/-- `Limiter.WaitN(ctx, n)` at time `t`, where the context fires at time
`cancelTime` (`none` = never). Modelled from the spec: `Acquire` computes
the wait needed for the next token and suspends until that time elapses or
the cancellation signal fires; on cancellation it returns a
CancellationError and performs no debit (the reservation is cancelled).
Returns the outcome, the resulting bucket state, and the time at which the
call returns. A cancellation arriving exactly at `timeToAct` is resolved in
favour of completion. -/
def waitN (s : LimState) (t : ℚ) (n : ℕ) (cancelTime : Option ℚ) :
    WaitResult × LimState × ℚ :=
  if s.burst < n then (.exceedsBurst, s, t)
  else if (cancelTime.map fun c => decide (c ≤ t)).getD false then (.cancelled, s, t)
  else
    let (r, s1) := reserveN s t n
    if r.timeToAct - t ≤ 0 then (.ok, s1, t)
    else
      match cancelTime with
      | some c =>
          if c < r.timeToAct then (.cancelled, cancelAt r s1 c, c)
          else (.ok, s1, r.timeToAct)
      | none => (.ok, s1, r.timeToAct)

/-- `rate.EmailTask`: a delayed email sending task held by the retry
queue. -/
structure EmailTask where
  recipients : List String
  subject : String
  body : String
  retryAt : ℚ
deriving Repr, DecidableEq

/-- `Limiter.QueueEmail` (`rate.go:106-118`): append one task whose
`RetryAt` is the current time plus a fixed 10-second delay. -/
def queueEmail (q : List EmailTask) (t : ℚ) (recipients : List String)
    (subject body : String) : List EmailTask :=
  q ++ [{ recipients := recipients, subject := subject, body := body,
          retryAt := t + 10 }]

/-- `Limiter.GetQueuedEmails` (`rate.go:122-140`): split the queue into the
tasks whose `RetryAt` lies strictly before `now` (`now.After(task.RetryAt)`)
— returned as ready — and the rest, which are retained. -/
def getQueuedEmails (q : List EmailTask) (t : ℚ) :
    List EmailTask × List EmailTask :=
  (q.filter fun task => decide (task.retryAt < t),
   q.filter fun task => !decide (task.retryAt < t))

/-- The body of `Limiter.processQueue`'s per-task step (`rate.go:159-171`):
for one drained ready task, re-check the limiter via `CanSend`; if allowed,
log the handoff (the sent list records it) and additionally block on
`WaitN(ctx, 1)`; otherwise re-enqueue the task via `QueueEmail`. Returns
the limiter state, the queue, and the tasks handed off for sending. -/
def processQueueItem (s : LimState) (q : List EmailTask) (t : ℚ)
    (task : EmailTask) : LimState × List EmailTask × List EmailTask :=
  let (ok, s1) := canSend s t
  if ok then
    let (_, s2, _) := waitN s1 t 1 none
    (s2, q, [task])
  else
    (s1, queueEmail q t task.recipients task.subject task.body, [])

/-- A demonstration limiter: the test configuration `PerHour = 600`,
`Burst = 2` with a full bucket at time 0. -/
def limFull : LimState :=
  { limit := 1/6, burst := 2, tokens := 2, last := 0, lastEvent := 0 }

/-- A demonstration limiter with an exhausted bucket at time 0. -/
def limEmpty : LimState :=
  { limit := 1/6, burst := 2, tokens := 0, last := 0, lastEvent := 0 }

/-- A retry item with a given eligibility time, for concrete evaluations. -/
def taskAt (r : ℚ) : EmailTask :=
  { recipients := ["a@example.com"], subject := "subj", body := "body",
    retryAt := r }

/-- `New` (`rate.go:36-55`): converts the per-hour rate to tokens per
second (`PerHour / 3600`) and builds the bucket with capacity `Burst`.
The underlying `x/time/rate` limiter yields a full bucket at first use
(its zero `last` time makes the first lazy accrual cap at burst), so the
state at construction time `t` carries `tokens = burst`. -/
def mkLimiter (perHour burst : ℕ) (t : ℚ) : LimState :=
  { limit := (perHour : ℚ) / 3600, burst := burst, tokens := (burst : ℚ),
    last := t, lastEvent := t }

/-- `n` successive `CanSend` checks at the same instant, returning how many
succeeded and the final bucket state. -/
def canSendMany (s : LimState) (t : ℚ) : ℕ → ℕ × LimState
  | 0 => (0, s)
  | n+1 =>
    let (ok, s1) := canSend s t
    let (c, s2) := canSendMany s1 t n
    ((if ok then 1 else 0) + c, s2)

/-- `scheduler.ScheduledTask`: a future-dated task. The data payload is a
`map[string]interface{}` the scheduler never inspects, modelled by an
arbitrary type `α`; `SendAt` is stored normalized to UTC, which on the
one-dimensional rational timeline is the identity. -/
structure ScheduledTask (α : Type) where
  id : String
  template : String
  recipients : List String
  data : α
  sendAt : ℚ
deriving DecidableEq

/-- The scheduler state visible to the claims: the pending-task table, the
`isRunning` flag, whether the context created at `New` has been cancelled,
and whether the `processTasks` goroutine is alive. -/
structure SchedState (α : Type) where
  tasks : List (String × ScheduledTask α)
  isRunning : Bool
  ctxCancelled : Bool
  loopAlive : Bool
deriving DecidableEq

/-- `scheduler.New`: empty table, not running, fresh (uncancelled) context,
no background loop. -/
def newScheduler (α : Type) : SchedState α :=
  { tasks := [], isRunning := false, ctxCancelled := false,
    loopAlive := false }

/-- `Scheduler.Start`: a no-op when already running; otherwise sets
`isRunning` and spawns `processTasks`, whose `select` returns immediately
when the context (created once in `New`) is already cancelled — so the
loop is alive only if the context still lives. -/
def Start {α : Type} (s : SchedState α) : SchedState α :=
  if s.isRunning then s
  else { s with isRunning := true, loopAlive := !s.ctxCancelled }

/-- `Scheduler.Stop`: a no-op when not running; otherwise clears
`isRunning` and cancels the context, which terminates the loop. -/
def Stop {α : Type} (s : SchedState α) : SchedState α :=
  if !s.isRunning then s
  else { s with
    isRunning := false
    ctxCancelled := true
    loopAlive := false }

/-- `Scheduler.Schedule`: rejects a duplicate pending id with an error and
otherwise stores the task. Returns the error (if any) and the resulting
state. -/
def Schedule {α : Type} (s : SchedState α) (id template : String)
    (recipients : List String) (data : α) (sendAt : ℚ) :
    Option String × SchedState α :=
  if (s.tasks.lookup id).isSome then
    (some ("task with ID " ++ id ++ " already exists"), s)
  else
    (none,
     { s with tasks := s.tasks ++
        [(id, { id := id, template := template, recipients := recipients,
                data := data, sendAt := sendAt })] })

/-- What became of one dispatched task (the logged outcome). -/
inductive DispatchOutcome where
  | renderFailed
  | sent
  | sendFailed
  | deferred
deriving DecidableEq, Repr

/-- `Scheduler.processTask` (`part_002:131-154`): render via the template
collaborator (`render`); on failure log and drop. Otherwise default an
empty subject, check the limiter: if granted, send (`sendOk` gives the
transport outcome, which is only logged), else hand the rendered email to
the retry queue. Returns the limiter state, the retry queue, and the
logged outcome. -/
def processTask {α : Type} (render : String → α → Option (String × String))
    (sendOk : List String → String → String → Bool)
    (lim : LimState) (q : List EmailTask) (t : ℚ)
    (task : ScheduledTask α) : LimState × List EmailTask × DispatchOutcome :=
  match render task.template task.data with
  | none => (lim, q, .renderFailed)
  | some (body, subject0) =>
    let subject := if subject0 = "" then
        "Scheduled email from RuneBird (" ++ task.template ++ ")"
      else subject0
    let (ok, lim1) := canSend lim t
    if ok then
      (lim1, q, if sendOk task.recipients subject body then .sent
                else .sendFailed)
    else
      (lim1, queueEmail q t task.recipients subject body, .deferred)

/-- The scan inside `Scheduler.processTasks`' tick (`part_002:108-124`):
walk the table, dispatch every task whose `SendAt ≤ now`, and collect its
id into `toDelete` regardless of the dispatch outcome. -/
def scanTasks {α : Type} (render : String → α → Option (String × String))
    (sendOk : List String → String → String → Bool) (t : ℚ) :
    List (String × ScheduledTask α) → LimState → List EmailTask →
      LimState × List EmailTask × List String
  | [], lim, q => (lim, q, [])
  | (id, task) :: rest, lim, q =>
    if task.sendAt ≤ t then
      let (lim1, q1, _) := processTask render sendOk lim q t task
      let (lim2, q2, dels) := scanTasks render sendOk t rest lim1 q1
      (lim2, q2, id :: dels)
    else
      scanTasks render sendOk t rest lim q

/-- One tick of `Scheduler.processTasks`: nothing happens unless the
background loop is alive; a cancelled context or a cleared `isRunning`
flag terminates the loop; otherwise the table is scanned and every
collected id is deleted. Returns the scheduler, the limiter, the retry
queue, and the ids dispatched this tick. -/
def processTick {α : Type} (render : String → α → Option (String × String))
    (sendOk : List String → String → String → Bool)
    (s : SchedState α) (lim : LimState) (q : List EmailTask) (t : ℚ) :
    SchedState α × LimState × List EmailTask × List String :=
  if ¬ s.loopAlive then (s, lim, q, [])
  else if s.ctxCancelled then ({ s with loopAlive := false }, lim, q, [])
  else if ¬ s.isRunning then ({ s with loopAlive := false }, lim, q, [])
  else
    let (lim1, q1, dels) := scanTasks render sendOk t s.tasks lim q
    ({ s with tasks := s.tasks.filter fun p => decide (p.1 ∉ dels) },
     lim1, q1, dels)

/-- A render collaborator that always succeeds, for concrete runs. -/
def renderDemo : String → ℕ → Option (String × String) :=
  fun _ _ => some ("body", "subj")

/-- A transport collaborator that always succeeds, for concrete runs. -/
def sendDemo : List String → String → String → Bool :=
  fun _ _ _ => true

/-- A started scheduler holding one task due at time 3. -/
def schedRun : SchedState ℕ :=
  Start (Schedule (newScheduler ℕ) "t1" "welcome" ["a@example.com"] 7 3).2

/-- The scheduler of `schedRun` after `Stop` and then `Start` again: the
context cancelled by `Stop` was created once in `New` and is never
recreated. -/
def schedRestarted : SchedState ℕ := Start (Stop schedRun)

/-! ### Theorems -/

theorem advance_tokens_le_burst (s : LimState) (t : ℚ) :
    (advance s t).tokens ≤ (s.burst : ℚ) := by
  simp only [advance]
  exact min_le_left _ _

theorem advance_last (s : LimState) (t : ℚ) : (advance s t).last = t := rfl

theorem advance_limit (s : LimState) (t : ℚ) : (advance s t).limit = s.limit := rfl

theorem advance_burst (s : LimState) (t : ℚ) : (advance s t).burst = s.burst := rfl

theorem advance_lastEvent (s : LimState) (t : ℚ) :
    (advance s t).lastEvent = s.lastEvent := rfl

/-- Accruing over a zero interval from an in-range balance changes nothing
but the clock. -/
theorem advance_self (s : LimState) (t : ℚ) (hlast : s.last = t)
    (htok : s.tokens ≤ (s.burst : ℚ)) : advance s t = { s with last := t } := by
  simp only [advance, hlast, lt_self_iff_false, if_false, sub_self, zero_mul,
    add_zero, min_eq_right htok]

/-- `reserveN` for a single token under a positive burst: the reservation
succeeds, one token is debited, and the reservation may act after the wait
needed for the balance to reach zero. -/
theorem reserveN_one (s : LimState) (t : ℚ) (hb : 1 ≤ s.burst) :
    reserveN s t 1 =
      ({ ok := true
         tokensRes := 1
         timeToAct := t + (if (advance s t).tokens - 1 < 0 then
           (1 - (advance s t).tokens) / s.limit else 0) },
       { advance s t with
         tokens := (advance s t).tokens - 1
         lastEvent := t + (if (advance s t).tokens - 1 < 0 then
           (1 - (advance s t).tokens) / s.limit else 0) }) := by
  simp only [reserveN, Nat.cast_one, if_pos hb, neg_sub]

/-- The single-token wait duration is nonpositive exactly when the accrued
balance already covers one token. -/
theorem waitDuration_one_nonpos_iff (s : LimState) (t : ℚ) (hl : 0 < s.limit) :
    ((if (advance s t).tokens - 1 < 0 then
        (1 - (advance s t).tokens) / s.limit else 0) ≤ 0
      ↔ 1 ≤ (advance s t).tokens) := by
  split
  · next h =>
    constructor
    · intro hle
      exfalso
      have hpos : 0 < (1 - (advance s t).tokens) / s.limit :=
        div_pos (by linarith) hl
      linarith
    · intro h1
      linarith
  · next h =>
    constructor
    · intro _
      linarith
    · intro _
      exact le_refl 0

/-- On a successful check, `canSend` keeps the reservation: one token is
debited from the accrued balance. -/
theorem canSend_true_eq (s : LimState) (t : ℚ) (hb : 1 ≤ s.burst)
    (h1 : 1 ≤ (advance s t).tokens) :
    canSend s t =
      (true, { advance s t with
               tokens := (advance s t).tokens - 1
               lastEvent := t }) := by
  have hw : (if (advance s t).tokens - 1 < 0 then
      (1 - (advance s t).tokens) / s.limit else 0) = 0 := by
    rw [if_neg]
    linarith
  simp only [canSend, reserveN_one s t hb, hw, add_zero, sub_self, le_refl,
    if_true]

/-- Cancelling a fresh single-token reservation (no later reservation
events) at the instant it was made restores the debited token in full. -/
theorem cancelAt_restores (s1 : LimState) (t w : ℚ) (hw : 0 < w)
    (hlast : s1.last = t) (hle : s1.tokens + 1 ≤ (s1.burst : ℚ))
    (hlev : s1.lastEvent = t + w) :
    (cancelAt { ok := true, tokensRes := 1, timeToAct := t + w } s1 t).tokens
        = s1.tokens + 1
    ∧ (cancelAt { ok := true, tokensRes := 1, timeToAct := t + w } s1 t).last
        = t := by
  have h2 : ¬ ((1 : ℕ) = 0 ∨ t + w < t) := by
    push_neg
    exact ⟨one_ne_zero, by linarith⟩
  have hrest : ((1 : ℕ) : ℚ) - (s1.lastEvent - (t + w)) * s1.limit = 1 := by
    rw [hlev]
    simp
  have hadv : advance s1 t = { s1 with last := t } :=
    advance_self s1 t hlast (by linarith)
  simp only [cancelAt]
  rw [if_neg (by simp)]
  rw [if_neg h2]
  rw [hrest]
  rw [if_neg (by norm_num)]
  rw [hadv]
  constructor
  · show min ((s1.burst : ℚ)) (s1.tokens + 1) = s1.tokens + 1
    exact min_eq_right hle
  · rfl

/-- On a failed check, `canSend` cancels its reservation: the token is fully
restored, so the state keeps the accrued balance. -/
theorem canSend_false_eq (s : LimState) (t : ℚ) (hb : 1 ≤ s.burst)
    (hl : 0 < s.limit) (h1 : ¬ 1 ≤ (advance s t).tokens) :
    (canSend s t).1 = false
    ∧ (canSend s t).2.tokens = (advance s t).tokens
    ∧ (canSend s t).2.last = t := by
  have hcap := advance_tokens_le_burst s t
  have hw : (if (advance s t).tokens - 1 < 0 then
      (1 - (advance s t).tokens) / s.limit else 0) =
      (1 - (advance s t).tokens) / s.limit := by
    rw [if_pos]
    linarith
  have hwpos : 0 < (1 - (advance s t).tokens) / s.limit :=
    div_pos (by linarith) hl
  have hdelay : ¬ (t + (1 - (advance s t).tokens) / s.limit - t ≤ 0) := by
    intro hle
    linarith
  have hres : reserveN s t 1 =
      ({ ok := true
         tokensRes := 1
         timeToAct := t + (1 - (advance s t).tokens) / s.limit },
       { advance s t with
         tokens := (advance s t).tokens - 1
         lastEvent := t + (1 - (advance s t).tokens) / s.limit }) := by
    rw [reserveN_one s t hb, hw]
  have hcano : canSend s t =
      (false, cancelAt
        { ok := true
          tokensRes := 1
          timeToAct := t + (1 - (advance s t).tokens) / s.limit }
        { advance s t with
          tokens := (advance s t).tokens - 1
          lastEvent := t + (1 - (advance s t).tokens) / s.limit } t) := by
    simp only [canSend, hres, if_true, if_neg hdelay]
  have hcanc := cancelAt_restores
    { advance s t with
      tokens := (advance s t).tokens - 1
      lastEvent := t + (1 - (advance s t).tokens) / s.limit }
    t ((1 - (advance s t).tokens) / s.limit) hwpos rfl
    (by simp only [advance_burst]; linarith) rfl
  rw [hcano]
  exact ⟨rfl, by rw [hcanc.1]; ring, hcanc.2⟩

/-- C1: `TryAcquire` (`Limiter.CanSend`) is non-blocking: after lazily
accruing tokens for the elapsed time capped at burst, it consumes exactly
one token and returns `true` when the accrued balance is at least 1; when
the balance is below 1 it returns `false` and leaves the balance unchanged
apart from the accrual — a failed check never debits the bucket. -/
theorem canSend_tryAcquire_spec (s : LimState) (t : ℚ)
    (hb : 1 ≤ s.burst) (hl : 0 < s.limit) :
    ((canSend s t).1 = true ↔ 1 ≤ (advance s t).tokens)
    ∧ ((canSend s t).1 = true →
        (canSend s t).2.tokens = (advance s t).tokens - 1)
    ∧ ((canSend s t).1 = false →
        (canSend s t).2.tokens = (advance s t).tokens
        ∧ (canSend s t).2.last = t)
    ∧ (advance s t).tokens ≤ (s.burst : ℚ) := by
  have hcap := advance_tokens_le_burst s t
  by_cases h1 : 1 ≤ (advance s t).tokens
  · rw [canSend_true_eq s t hb h1]
    exact ⟨by simp [h1], fun _ => rfl, by simp, hcap⟩
  · obtain ⟨hf, htok, hlast⟩ := canSend_false_eq s t hb hl h1
    refine ⟨?_, ?_, fun _ => ⟨htok, hlast⟩, hcap⟩
    · rw [hf]
      simp [h1]
    · intro htrue
      rw [hf] at htrue
      exact absurd htrue (by simp)

/-- C1 witness: the hypotheses and conclusion at the concrete test
configuration. -/
theorem canSend_tryAcquire_spec_witness :
    (1 ≤ limFull.burst ∧ 0 < limFull.limit)
    ∧ (((canSend limFull 0).1 = true ↔ 1 ≤ (advance limFull 0).tokens)
      ∧ ((canSend limFull 0).1 = true →
          (canSend limFull 0).2.tokens = (advance limFull 0).tokens - 1)
      ∧ ((canSend limFull 0).1 = false →
          (canSend limFull 0).2.tokens = (advance limFull 0).tokens
          ∧ (canSend limFull 0).2.last = 0)
      ∧ (advance limFull 0).tokens ≤ (limFull.burst : ℚ)) :=
  ⟨⟨by norm_num [limFull], by norm_num [limFull]⟩,
    canSend_tryAcquire_spec limFull 0 (by norm_num [limFull])
      (by norm_num [limFull])⟩

/-- C3 counterexample: an item whose retry-eligible time equals `now` is
retained, not returned — `GetQueuedEmails` uses the strict comparison
`now.After(task.RetryAt)`, so the claim's "retry-eligible-at ≤ now is
returned" fails at the boundary. -/
theorem getQueuedEmails_boundary_counterexample :
    (taskAt 5).retryAt ≤ 5
    ∧ (getQueuedEmails [taskAt 5] 5).1 = []
    ∧ (getQueuedEmails [taskAt 5] 5).2 = [taskAt 5] := by
  refine ⟨le_refl _, ?_, ?_⟩ <;> simp [getQueuedEmails, taskAt]

/-- C3 (amended): `DrainReady(now)` returns exactly the stored items whose
retry-eligible-at timestamp is strictly before `now` and retains exactly
the rest; every stored item lands in exactly one of the two outputs, none
lost and none duplicated. -/
theorem getQueuedEmails_partition (q : List EmailTask) (t : ℚ) :
    (∀ x ∈ (getQueuedEmails q t).1, x.retryAt < t)
    ∧ (∀ x ∈ (getQueuedEmails q t).2, ¬ x.retryAt < t)
    ∧ List.Perm ((getQueuedEmails q t).1 ++ (getQueuedEmails q t).2) q := by
  refine ⟨?_, ?_, ?_⟩
  · intro x hx
    simp only [getQueuedEmails, List.mem_filter] at hx
    simpa using hx.2
  · intro x hx
    simp only [getQueuedEmails, List.mem_filter] at hx
    simpa using hx.2
  · exact List.filter_append_perm _ q

/-- C4 counterexample: enqueue at time 0 gives retry-eligible-at 10, and
draining exactly at `now + delay = 10` returns nothing (the comparison is
strict), contradicting "DrainReady(now + delay) returns exactly that
item". -/
theorem queueEmail_drain_boundary_counterexample :
    (getQueuedEmails (queueEmail [] 0 ["r@example.com"] "subj" "body") 10).1
        = []
    ∧ (getQueuedEmails (queueEmail [] 0 ["r@example.com"] "subj" "body") 10).2
        = queueEmail [] 0 ["r@example.com"] "subj" "body" := by
  constructor <;> simp [getQueuedEmails, queueEmail]

/-- C4 (amended): `Enqueue` appends exactly one item with retry-eligible-at
`now + 10`, leaving previously queued items unchanged; a drain at `now`, and
even at `now + 10` exactly, returns no items; a drain at any time strictly
after `now + 10` returns exactly that item and leaves the queue empty. -/
theorem queueEmail_drain_spec (q : List EmailTask) (t tl : ℚ)
    (recipients : List String) (subject body : String) (h : t + 10 < tl) :
    queueEmail q t recipients subject body
      = q ++ [{ recipients := recipients, subject := subject, body := body,
                retryAt := t + 10 }]
    ∧ (getQueuedEmails (queueEmail [] t recipients subject body) t).1 = []
    ∧ (getQueuedEmails (queueEmail [] t recipients subject body) (t + 10)).1
        = []
    ∧ (getQueuedEmails (queueEmail [] t recipients subject body) tl).1
        = [{ recipients := recipients, subject := subject, body := body,
             retryAt := t + 10 }]
    ∧ (getQueuedEmails (queueEmail [] t recipients subject body) tl).2
        = [] := by
  have h1 : ¬ (t + 10 < t) := by linarith
  have h2 : ¬ (t + 10 < t + 10) := lt_irrefl _
  refine ⟨rfl, ?_, ?_, ?_, ?_⟩ <;>
    simp [queueEmail, getQueuedEmails, h1, h2, h]

/-- C4 witness: the hypothesis and conclusion at `t = 0`, `tl = 11`. -/
theorem queueEmail_drain_spec_witness :
    ((0 : ℚ) + 10 < 11)
    ∧ (queueEmail [] 0 ["r@example.com"] "subj" "body"
        = [] ++ [{ recipients := ["r@example.com"], subject := "subj",
                   body := "body", retryAt := (0 : ℚ) + 10 }]
      ∧ (getQueuedEmails (queueEmail [] 0 ["r@example.com"] "subj" "body")
          0).1 = []
      ∧ (getQueuedEmails (queueEmail [] 0 ["r@example.com"] "subj" "body")
          ((0 : ℚ) + 10)).1 = []
      ∧ (getQueuedEmails (queueEmail [] 0 ["r@example.com"] "subj" "body")
          11).1
          = [{ recipients := ["r@example.com"], subject := "subj",
               body := "body", retryAt := (0 : ℚ) + 10 }]
      ∧ (getQueuedEmails (queueEmail [] 0 ["r@example.com"] "subj" "body")
          11).2 = []) :=
  ⟨by norm_num,
    queueEmail_drain_spec [] 0 11 ["r@example.com"] "subj" "body"
      (by norm_num)⟩

theorem cancelAt_limit (r : Reservation) (s : LimState) (t : ℚ) :
    (cancelAt r s t).limit = s.limit := by
  simp only [cancelAt]
  split_ifs <;> rfl

theorem cancelAt_burst (r : Reservation) (s : LimState) (t : ℚ) :
    (cancelAt r s t).burst = s.burst := by
  simp only [cancelAt]
  split_ifs <;> rfl

theorem canSend_limit (s : LimState) (t : ℚ) :
    (canSend s t).2.limit = s.limit := by
  simp only [canSend, reserveN]
  split_ifs <;> simp [cancelAt_limit, advance_limit]

theorem canSend_burst (s : LimState) (t : ℚ) :
    (canSend s t).2.burst = s.burst := by
  simp only [canSend, reserveN]
  split_ifs <;> simp [cancelAt_burst, advance_burst]

theorem canSendMany_succ (s : LimState) (t : ℚ) (n : ℕ) :
    canSendMany s t (n+1) =
      ((if (canSend s t).1 then 1 else 0)
        + (canSendMany (canSend s t).2 t n).1,
       (canSendMany (canSend s t).2 t n).2) := by
  cases hc : canSend s t with
  | mk ok s1 =>
    cases hm : canSendMany s1 t n with
    | mk cnt s2 => simp [canSendMany, hc, hm]

/-- Repeated immediate checks from an integer balance `c ≤ burst`: exactly
`min n c` of `n` checks succeed, and the final balance is `c - min n c`. -/
theorem canSendMany_spec (t : ℚ) (n : ℕ) :
    ∀ (s : LimState) (c : ℕ), s.last = t → s.tokens = (c : ℚ) →
      c ≤ s.burst → 1 ≤ s.burst → 0 < s.limit →
      (canSendMany s t n).1 = min n c
      ∧ (canSendMany s t n).2.tokens = ((c - min n c : ℕ) : ℚ)
      ∧ (canSendMany s t n).2.last = t
      ∧ (canSendMany s t n).2.burst = s.burst
      ∧ (canSendMany s t n).2.limit = s.limit := by
  induction n with
  | zero =>
    intro s c hlast htok hcb hb hl
    refine ⟨by simp [canSendMany], ?_, hlast, rfl, rfl⟩
    simpa [canSendMany, Nat.zero_min] using htok
  | succ n ih =>
    intro s c hlast htok hcb hb hl
    have hadv : advance s t = { s with last := t } :=
      advance_self s t hlast (by rw [htok]; exact_mod_cast hcb)
    have hadvtok : (advance s t).tokens = (c : ℚ) := by
      rw [hadv]
      exact htok
    rcases Nat.eq_zero_or_pos c with hc0 | hc1
    · subst hc0
      have hnot : ¬ 1 ≤ (advance s t).tokens := by
        rw [hadvtok]
        norm_num
      obtain ⟨hf, htok2, hlast2⟩ := canSend_false_eq s t hb hl hnot
      have ihr := ih (canSend s t).2 0 hlast2
        (by rw [htok2, hadvtok]) (Nat.zero_le _)
        (by rw [canSend_burst]; exact hb)
        (by rw [canSend_limit]; exact hl)
      rw [canSendMany_succ]
      refine ⟨?_, ?_, ihr.2.2.1, ?_, ?_⟩
      · rw [hf]
        simpa using ihr.1
      · simpa using ihr.2.1
      · rw [ihr.2.2.2.1, canSend_burst]
      · rw [ihr.2.2.2.2, canSend_limit]
    · have h1 : 1 ≤ (advance s t).tokens := by
        rw [hadvtok]
        exact_mod_cast hc1
      have hceq := canSend_true_eq s t hb h1
      have hstate : (canSend s t).2 =
          { advance s t with
            tokens := (advance s t).tokens - 1
            lastEvent := t } := by rw [hceq]
      have htrue : (canSend s t).1 = true := by rw [hceq]
      have htok1 : (canSend s t).2.tokens = ((c - 1 : ℕ) : ℚ) := by
        rw [hstate]
        show (advance s t).tokens - 1 = _
        rw [hadvtok]
        have : ((c - 1 : ℕ) : ℚ) = (c : ℚ) - 1 := by
          push_cast [hc1]
          ring
        rw [this]
      have hlast1 : (canSend s t).2.last = t := by
        rw [hstate]
        rfl
      have ihr := ih (canSend s t).2 (c - 1) hlast1 htok1
        (by rw [canSend_burst]; omega)
        (by rw [canSend_burst]; exact hb)
        (by rw [canSend_limit]; exact hl)
      rw [canSendMany_succ]
      refine ⟨?_, ?_, ihr.2.2.1, ?_, ?_⟩
      · rw [htrue, ihr.1]
        simp only [if_true]
        omega
      · rw [ihr.2.1]
        congr 1
        omega
      · rw [ihr.2.2.2.1, canSend_burst]
      · rw [ihr.2.2.2.2, canSend_limit]

theorem advance_tokens_of_le (s : LimState) (t : ℚ) (h : s.last ≤ t) :
    (advance s t).tokens
      = min ((s.burst : ℚ)) (s.tokens + (t - s.last) * s.limit) := by
  simp only [advance, if_neg (not_lt.mpr h)]

/-- C5: starting from a full bucket with `ratePerHour = R` and
`burst = B`, exactly `min n B` of `n` immediate `TryAcquire` calls succeed
— so at most `B` succeed and the `(B+1)`-th fails; the refill rate is
`R/3600` tokens per second, and for `R = 600`, `B = 2`: two immediate calls
succeed, a third immediate call fails, and a call after waiting `d ≥ 6`
seconds succeeds. -/
theorem tryAcquire_burst_spec (R B n : ℕ) (t d : ℚ)
    (hR : 1 ≤ R) (hB : 1 ≤ B) (hd : 6 ≤ d) :
    (canSendMany (mkLimiter R B t) t n).1 = min n B
    ∧ (canSendMany (mkLimiter R B t) t (B + 1)).1 = B
    ∧ (mkLimiter R B t).limit = (R : ℚ) / 3600
    ∧ (canSendMany (mkLimiter 600 2 t) t 2).1 = 2
    ∧ (canSend (canSendMany (mkLimiter 600 2 t) t 2).2 t).1 = false
    ∧ (canSend (canSend (canSendMany (mkLimiter 600 2 t) t 2).2 t).2
        (t + d)).1 = true := by
  have hl : 0 < (mkLimiter R B t).limit := by
    have : (0 : ℚ) < (R : ℚ) := by exact_mod_cast hR
    exact div_pos this (by norm_num)
  have hgen := canSendMany_spec t n (mkLimiter R B t) B rfl rfl
    (le_refl B) hB hl
  have hgen1 := canSendMany_spec t (B + 1) (mkLimiter R B t) B rfl rfl
    (le_refl B) hB hl
  have hl6 : 0 < (mkLimiter 600 2 t).limit := by
    norm_num [mkLimiter]
  have h2 := canSendMany_spec t 2 (mkLimiter 600 2 t) 2 rfl rfl
    (le_refl 2) (by norm_num : (1 : ℕ) ≤ 2) hl6
  obtain ⟨h2c, h2tok, h2last, h2burst, h2lim⟩ := h2
  have hb2 : 1 ≤ (canSendMany (mkLimiter 600 2 t) t 2).2.burst := by
    rw [h2burst]
    exact (by norm_num : (1 : ℕ) ≤ 2)
  have hl2 : 0 < (canSendMany (mkLimiter 600 2 t) t 2).2.limit := by
    rw [h2lim]
    exact hl6
  have h2tok0 : (canSendMany (mkLimiter 600 2 t) t 2).2.tokens = 0 := by
    rw [h2tok]
    norm_num
  have hadv2 : (advance (canSendMany (mkLimiter 600 2 t) t 2).2 t).tokens
      = 0 := by
    rw [advance_tokens_of_le _ t (le_of_eq h2last), h2last, h2tok0]
    simp only [sub_self, zero_mul, add_zero]
    rw [min_eq_right]
    rw [h2burst]
    norm_num [mkLimiter]
  have hnot : ¬ 1 ≤ (advance (canSendMany (mkLimiter 600 2 t) t 2).2
      t).tokens := by
    rw [hadv2]
    norm_num
  obtain ⟨hf, hftok, hflast⟩ :=
    canSend_false_eq (canSendMany (mkLimiter 600 2 t) t 2).2 t hb2 hl2 hnot
  have hb3 : 1 ≤ (canSend (canSendMany (mkLimiter 600 2 t) t 2).2 t).2.burst := by
    rw [canSend_burst]
    exact hb2
  have hl3 : 0 < (canSend (canSendMany (mkLimiter 600 2 t) t 2).2 t).2.limit := by
    rw [canSend_limit]
    exact hl2
  have h1 : 1 ≤ (advance
      (canSend (canSendMany (mkLimiter 600 2 t) t 2).2 t).2 (t + d)).tokens := by
    rw [advance_tokens_of_le _ (t + d) (by rw [hflast]; linarith)]
    rw [hflast, hftok, hadv2, canSend_burst, canSend_limit, h2burst, h2lim]
    have hval : (0 : ℚ) + (t + d - t) * ((mkLimiter 600 2 t).limit) = d / 6 := by
      show (0 : ℚ) + (t + d - t) * (((600 : ℕ) : ℚ) / 3600) = d / 6
      push_cast
      ring
    rw [hval]
    refine le_min ?_ ?_
    · show (1 : ℚ) ≤ ((mkLimiter 600 2 t).burst : ℚ)
      norm_num [mkLimiter]
    · linarith
  refine ⟨hgen.1, ?_, rfl, by rw [h2c]; omega, hf, ?_⟩
  · rw [hgen1.1]
    omega
  · exact (canSend_tryAcquire_spec _ (t + d) hb3 hl3).1.mpr h1

/-- C5 witness: the hypotheses and conclusion at `R = 600`, `B = 2`,
`n = 3`, `t = 0`, `d = 6`. -/
theorem tryAcquire_burst_spec_witness :
    (1 ≤ 600 ∧ 1 ≤ 2 ∧ (6 : ℚ) ≤ 6)
    ∧ ((canSendMany (mkLimiter 600 2 0) 0 3).1 = min 3 2
      ∧ (canSendMany (mkLimiter 600 2 0) 0 (2 + 1)).1 = 2
      ∧ (mkLimiter 600 2 0).limit = ((600 : ℕ) : ℚ) / 3600
      ∧ (canSendMany (mkLimiter 600 2 0) 0 2).1 = 2
      ∧ (canSend (canSendMany (mkLimiter 600 2 0) 0 2).2 0).1 = false
      ∧ (canSend (canSend (canSendMany (mkLimiter 600 2 0) 0 2).2 0).2
          ((0 : ℚ) + 6)).1 = true) :=
  ⟨⟨by norm_num, by norm_num, le_refl 6⟩,
    tryAcquire_burst_spec 600 2 3 0 6 (by norm_num) (by norm_num)
      (le_refl 6)⟩

/-- `WaitN(ctx, 1)` under a live context always ends in the post-reservation
state, whether or not it had to sleep. -/
theorem waitN_one_state (s : LimState) (t : ℚ) (hb : 1 ≤ s.burst) :
    (waitN s t 1 none).2.1 = (reserveN s t 1).2 := by
  simp only [waitN, Option.map_none', Option.getD_none, Bool.false_eq_true,
    if_false]
  rw [if_neg (by omega : ¬ s.burst < 1)]
  cases hr : reserveN s t 1 with
  | mk r s1 =>
    simp only
    split_ifs <;> rfl

/-- One step of `processQueue`'s loop body, written by cases on the quota
check. -/
theorem processQueueItem_eq (s : LimState) (q : List EmailTask) (t : ℚ)
    (task : EmailTask) :
    processQueueItem s q t task =
      if (canSend s t).1 then
        ((waitN (canSend s t).2 t 1 none).2.1, q, [task])
      else
        ((canSend s t).2,
         queueEmail q t task.recipients task.subject task.body, []) := by
  rcases hc : canSend s t with ⟨ok, s1⟩
  rcases hw : waitN s1 t 1 none with ⟨w, s2, tw⟩
  simp [processQueueItem, hc, hw]

/-- On the granted path, `CanSend`'s kept reservation plus the loop's
`WaitN` debit two tokens in total from the accrued balance. -/
theorem processQueueItem_grant_state (s : LimState) (q : List EmailTask)
    (t : ℚ) (task : EmailTask) (hb : 1 ≤ s.burst) (hl : 0 < s.limit)
    (hgrant : (canSend s t).1 = true) :
    (processQueueItem s q t task).1.tokens = (advance s t).tokens - 2
    ∧ (processQueueItem s q t task).2.1 = q
    ∧ (processQueueItem s q t task).2.2 = [task] := by
  have h1 : 1 ≤ (advance s t).tokens :=
    (canSend_tryAcquire_spec s t hb hl).1.mp hgrant
  have hceq := canSend_true_eq s t hb h1
  have hcap := advance_tokens_le_burst s t
  rw [processQueueItem_eq, hgrant, if_pos rfl]
  refine ⟨?_, rfl, rfl⟩
  have hbM : 1 ≤ (canSend s t).2.burst := by
    rw [canSend_burst]
    exact hb
  rw [waitN_one_state _ t hbM]
  have hadvM : advance (canSend s t).2 t = { (canSend s t).2 with last := t } := by
    refine advance_self _ t ?_ ?_
    · rw [hceq]
      rfl
    · rw [canSend_burst]
      rw [hceq]
      show (advance s t).tokens - 1 ≤ ((s.burst : ℚ))
      linarith
  rw [reserveN_one _ t hbM]
  show (advance (canSend s t).2 t).tokens - 1 = (advance s t).tokens - 2
  rw [hadvM]
  show (canSend s t).2.tokens - 1 = (advance s t).tokens - 2
  rw [hceq]
  show (advance s t).tokens - 1 - 1 = (advance s t).tokens - 2
  ring

/-- On the denied path the item is re-enqueued with a fresh 10-second delay
and the balance keeps the pure accrual. -/
theorem processQueueItem_denied_state (s : LimState) (q : List EmailTask)
    (t : ℚ) (task : EmailTask) (hb : 1 ≤ s.burst) (hl : 0 < s.limit)
    (hdeny : (canSend s t).1 = false) :
    (processQueueItem s q t task).1.tokens = (advance s t).tokens
    ∧ (processQueueItem s q t task).2.1
        = q ++ [{ recipients := task.recipients, subject := task.subject,
                  body := task.body, retryAt := t + 10 }]
    ∧ (processQueueItem s q t task).2.2 = [] := by
  have hf := canSend_false_eq s t hb hl
      (fun h1 => by
        have := (canSend_tryAcquire_spec s t hb hl).1.mpr h1
        rw [hdeny] at this
        exact Bool.false_ne_true this)
  rw [processQueueItem_eq, hdeny]
  rw [if_neg Bool.false_ne_true]
  exact ⟨hf.2.1, rfl, rfl⟩

/-- C2 counterexample: from a full bucket (`tokens = 2`), processing one
drained ready item on the granted path leaves a balance of `0`, not the `1`
that "consuming one token" would give — the handoff consumes two tokens. -/
theorem processQueue_one_token_counterexample :
    (processQueueItem limFull [] 0 (taskAt 0)).2.2 = [taskAt 0]
    ∧ (processQueueItem limFull [] 0 (taskAt 0)).1.tokens = 0
    ∧ ¬ ((processQueueItem limFull [] 0 (taskAt 0)).1.tokens
        = (advance limFull 0).tokens - 1) := by
  refine ⟨?_, ?_, ?_⟩ <;>
    norm_num [processQueueItem, canSend, reserveN, advance, cancelAt, waitN,
      limFull, taskAt, min_def]

/-- C2 (amended): in the drain loop's per-item step, every drained ready
item for which `TryAcquire` grants a token is handed off to the transport
collaborator — one send attempt, consuming two tokens (one kept by
`CanSend`'s reservation and one more taken by the loop's `WaitN`) — and
every drained item for which the quota is still unavailable is re-enqueued
with a fresh 10-second delay and no debit. -/
theorem processQueue_item_spec (s : LimState) (q : List EmailTask) (t : ℚ)
    (task : EmailTask) (hb : 1 ≤ s.burst) (hl : 0 < s.limit) :
    ((canSend s t).1 = true →
      (processQueueItem s q t task).2.2 = [task]
      ∧ (processQueueItem s q t task).2.1 = q
      ∧ (processQueueItem s q t task).1.tokens = (advance s t).tokens - 2)
    ∧ ((canSend s t).1 = false →
      (processQueueItem s q t task).2.2 = []
      ∧ (processQueueItem s q t task).2.1
          = q ++ [{ recipients := task.recipients, subject := task.subject,
                    body := task.body, retryAt := t + 10 }]
      ∧ (processQueueItem s q t task).1.tokens = (advance s t).tokens) := by
  constructor
  · intro hg
    obtain ⟨h1, h2, h3⟩ := processQueueItem_grant_state s q t task hb hl hg
    exact ⟨h3, h2, h1⟩
  · intro hd
    obtain ⟨h1, h2, h3⟩ := processQueueItem_denied_state s q t task hb hl hd
    exact ⟨h3, h2, h1⟩

/-- C2 witness: hypotheses and conclusion at the full-bucket test
configuration. -/
theorem processQueue_item_spec_witness :
    (1 ≤ limFull.burst ∧ 0 < limFull.limit)
    ∧ (((canSend limFull 0).1 = true →
        (processQueueItem limFull [] 0 (taskAt 20)).2.2 = [taskAt 20]
        ∧ (processQueueItem limFull [] 0 (taskAt 20)).2.1 = []
        ∧ (processQueueItem limFull [] 0 (taskAt 20)).1.tokens
            = (advance limFull 0).tokens - 2)
      ∧ ((canSend limFull 0).1 = false →
        (processQueueItem limFull [] 0 (taskAt 20)).2.2 = []
        ∧ (processQueueItem limFull [] 0 (taskAt 20)).2.1
            = [] ++ [{ recipients := (taskAt 20).recipients,
                       subject := (taskAt 20).subject,
                       body := (taskAt 20).body, retryAt := (0 : ℚ) + 10 }]
        ∧ (processQueueItem limFull [] 0 (taskAt 20)).1.tokens
            = (advance limFull 0).tokens)) :=
  ⟨⟨by norm_num [limFull], by norm_num [limFull]⟩,
    processQueue_item_spec limFull [] 0 (taskAt 20)
      (by norm_num [limFull]) (by norm_num [limFull])⟩

/-- C10: for every drained retry item processed while the quota check
succeeds, the loop consumes two tokens from the accrued balance, not one:
`CanSend` keeps its reservation on the success path, and the loop then
waits on and consumes a second token via `WaitN`. -/
theorem processQueue_grant_consumes_two (s : LimState) (q : List EmailTask)
    (t : ℚ) (task : EmailTask) (hb : 1 ≤ s.burst) (hl : 0 < s.limit)
    (hgrant : (canSend s t).1 = true) :
    (processQueueItem s q t task).1.tokens = (advance s t).tokens - 2
    ∧ (processQueueItem s q t task).2.2 = [task] := by
  obtain ⟨h1, _, h3⟩ := processQueueItem_grant_state s q t task hb hl hgrant
  exact ⟨h1, h3⟩

/-- C10 witness: hypotheses and conclusion at the full-bucket test
configuration. -/
theorem processQueue_grant_consumes_two_witness :
    (1 ≤ limFull.burst ∧ 0 < limFull.limit ∧ (canSend limFull 0).1 = true)
    ∧ ((processQueueItem limFull [] 0 (taskAt 30)).1.tokens
        = (advance limFull 0).tokens - 2
      ∧ (processQueueItem limFull [] 0 (taskAt 30)).2.2 = [taskAt 30]) :=
  ⟨⟨by norm_num [limFull], by norm_num [limFull],
    by norm_num [canSend, reserveN, advance, limFull, min_def]⟩,
    processQueue_grant_consumes_two limFull [] 0 (taskAt 30)
      (by norm_num [limFull]) (by norm_num [limFull])
      (by norm_num [canSend, reserveN, advance, limFull, min_def])⟩

/-- Cancelling a single-token reservation at a later instant `tc` (but not
past its `timeToAct`, with no later reservation events) restores the token
on top of the accrual up to `tc`. -/
theorem cancelAt_restores_later (s1 : LimState) (t w tc : ℚ)
    (hlast : s1.last = t) (htlo : t ≤ tc) (hthi : ¬ t + w < tc)
    (hlev : s1.lastEvent = t + w)
    (hcap : s1.tokens + (tc - t) * s1.limit + 1 ≤ (s1.burst : ℚ)) :
    (cancelAt { ok := true, tokensRes := 1, timeToAct := t + w } s1 tc).tokens
        = s1.tokens + (tc - t) * s1.limit + 1
    ∧ (cancelAt { ok := true, tokensRes := 1, timeToAct := t + w } s1 tc).last
        = tc := by
  have h2 : ¬ ((1 : ℕ) = 0 ∨ t + w < tc) := by
    push_neg
    exact ⟨one_ne_zero, not_lt.mp hthi⟩
  have hrest : ((1 : ℕ) : ℚ) - (s1.lastEvent - (t + w)) * s1.limit = 1 := by
    rw [hlev]
    simp
  have hadv : (advance s1 tc).tokens
      = min ((s1.burst : ℚ)) (s1.tokens + (tc - s1.last) * s1.limit) :=
    advance_tokens_of_le s1 tc (by rw [hlast]; exact htlo)
  simp only [cancelAt]
  rw [if_neg (by simp)]
  rw [if_neg h2]
  rw [hrest]
  rw [if_neg (by norm_num)]
  constructor
  · show min ((s1.burst : ℚ)) ((advance s1 tc).tokens + 1) = _
    rw [hadv, hlast]
    rw [min_eq_right
      (by linarith : s1.tokens + (tc - t) * s1.limit ≤ ((s1.burst : ℚ)))]
    exact min_eq_right hcap
  · rfl

/-- C9: a blocked `Acquire` (`ConsumeToken`, i.e. `WaitN` under the
limiter's context) that is cancelled before its reservation's `timeToAct`
returns a CancellationError at the moment `tc` the signal fires, and the
bucket balance equals the pure accrual up to `tc` — cancellation performs
no debit. -/
theorem acquire_cancel_spec (s : LimState) (t tc : ℚ)
    (hb : 1 ≤ s.burst) (hl : 0 < s.limit) (hlast : s.last ≤ t) (htc : t < tc)
    (hblock : (advance s t).tokens < 1)
    (hcancel : tc < t + (1 - (advance s t).tokens) / s.limit) :
    (waitN s t 1 (some tc)).1 = WaitResult.cancelled
    ∧ (waitN s t 1 (some tc)).2.2 = tc
    ∧ (waitN s t 1 (some tc)).2.1.tokens = (advance s tc).tokens := by
  have hcast : (1 : ℚ) ≤ (s.burst : ℚ) := by exact_mod_cast hb
  have hwpos : 0 < (1 - (advance s t).tokens) / s.limit :=
    div_pos (by linarith) hl
  have hwif : (if (advance s t).tokens - 1 < 0 then
      (1 - (advance s t).tokens) / s.limit else 0)
      = (1 - (advance s t).tokens) / s.limit := if_pos (by linarith)
  have hres := reserveN_one s t hb
  rw [hwif] at hres
  have hmul : (tc - t) * s.limit < 1 - (advance s t).tokens := by
    have h' : tc - t < (1 - (advance s t).tokens) / s.limit := by linarith
    exact (lt_div_iff₀ hl).mp h'
  have hy : (advance s t).tokens = s.tokens + (t - s.last) * s.limit := by
    have h' := advance_tokens_of_le s t hlast
    rcases le_or_lt ((s.burst : ℚ)) (s.tokens + (t - s.last) * s.limit)
      with hc | hc
    · rw [h', min_eq_left hc] at hblock
      linarith
    · rw [h', min_eq_right (le_of_lt hc)]
  have hcanc := cancelAt_restores_later
    { advance s t with
      tokens := (advance s t).tokens - 1
      lastEvent := t + (1 - (advance s t).tokens) / s.limit }
    t ((1 - (advance s t).tokens) / s.limit) tc rfl (le_of_lt htc)
    (by intro hlt; linarith) rfl
    (by
      show (advance s t).tokens - 1 + (tc - t) * s.limit + 1 ≤ ((s.burst : ℚ))
      linarith)
  have hdelay : ¬ (t + (1 - (advance s t).tokens) / s.limit - t ≤ 0) := by
    intro hle
    linarith
  have hunfold : waitN s t 1 (some tc) =
      (.cancelled, cancelAt
        { ok := true
          tokensRes := 1
          timeToAct := t + (1 - (advance s t).tokens) / s.limit }
        { advance s t with
          tokens := (advance s t).tokens - 1
          lastEvent := t + (1 - (advance s t).tokens) / s.limit } tc, tc) := by
    simp only [waitN, hres, Option.map_some', Option.getD_some,
      decide_eq_true_eq]
    rw [if_neg (by omega : ¬ s.burst < 1)]
    rw [if_neg (not_le.mpr htc)]
    rw [if_neg hdelay]
    rw [if_pos hcancel]
  rw [hunfold]
  refine ⟨rfl, rfl, ?_⟩
  show (cancelAt _ _ tc).tokens = (advance s tc).tokens
  rw [hcanc.1]
  have hadvtc : (advance s tc).tokens
      = min ((s.burst : ℚ)) (s.tokens + (tc - s.last) * s.limit) :=
    advance_tokens_of_le s tc (le_trans hlast (le_of_lt htc))
  rw [hadvtc]
  rw [min_eq_right (by nlinarith [hy, hmul, hcast])]
  show (advance s t).tokens - 1 + (tc - t) * s.limit + 1
      = s.tokens + (tc - s.last) * s.limit
  rw [hy]
  ring

/-- C9 witness: hypotheses and conclusion with an empty bucket at `t = 0`
and the signal firing at `tc = 1`. -/
theorem acquire_cancel_spec_witness :
    (1 ≤ limEmpty.burst ∧ 0 < limEmpty.limit ∧ limEmpty.last ≤ 0
      ∧ (0 : ℚ) < 1 ∧ (advance limEmpty 0).tokens < 1
      ∧ (1 : ℚ) < 0 + (1 - (advance limEmpty 0).tokens) / limEmpty.limit)
    ∧ ((waitN limEmpty 0 1 (some 1)).1 = WaitResult.cancelled
      ∧ (waitN limEmpty 0 1 (some 1)).2.2 = 1
      ∧ (waitN limEmpty 0 1 (some 1)).2.1.tokens
          = (advance limEmpty 1).tokens) :=
  ⟨⟨by norm_num [limEmpty], by norm_num [limEmpty], by norm_num [limEmpty],
    by norm_num, by norm_num [advance, limEmpty, min_def],
    by norm_num [advance, limEmpty, min_def]⟩,
    acquire_cancel_spec limEmpty 0 1 (by norm_num [limEmpty])
      (by norm_num [limEmpty]) (by norm_num [limEmpty]) (by norm_num)
      (by norm_num [advance, limEmpty, min_def])
      (by norm_num [advance, limEmpty, min_def])⟩

/-- C6: scheduling an id that is already pending returns a
DuplicateTaskError and leaves the pending-task table unchanged — in
particular the first task's stored data is still found under that id. -/
theorem schedule_duplicate_spec {α : Type} (s : SchedState α)
    (id template : String) (recipients : List String) (data : α)
    (sendAt : ℚ) (t0 : ScheduledTask α)
    (hdup : s.tasks.lookup id = some t0) :
    (Schedule s id template recipients data sendAt).1
        = some ("task with ID " ++ id ++ " already exists")
    ∧ (Schedule s id template recipients data sendAt).2 = s
    ∧ (Schedule s id template recipients data sendAt).2.tasks.lookup id
        = some t0 := by
  have hsome : (s.tasks.lookup id).isSome = true := by
    rw [hdup]
    rfl
  simp only [Schedule]
  rw [if_pos hsome]
  exact ⟨rfl, rfl, hdup⟩

/-- C6 witness: scheduling `"t1"` twice on a fresh scheduler. -/
theorem schedule_duplicate_spec_witness :
    ((Schedule (newScheduler ℕ) "t1" "welcome" ["a@example.com"] 7
        3).2.tasks.lookup "t1"
      = some { id := "t1", template := "welcome",
               recipients := ["a@example.com"], data := 7, sendAt := 3 })
    ∧ ((Schedule ((Schedule (newScheduler ℕ) "t1" "welcome"
          ["a@example.com"] 7 3).2) "t1" "other" [] 0 9).1
        = some ("task with ID " ++ "t1" ++ " already exists")
      ∧ (Schedule ((Schedule (newScheduler ℕ) "t1" "welcome"
          ["a@example.com"] 7 3).2) "t1" "other" [] 0 9).2
        = (Schedule (newScheduler ℕ) "t1" "welcome" ["a@example.com"] 7
            3).2
      ∧ (Schedule ((Schedule (newScheduler ℕ) "t1" "welcome"
          ["a@example.com"] 7 3).2) "t1" "other" [] 0 9).2.tasks.lookup
          "t1"
        = some { id := "t1", template := "welcome",
                 recipients := ["a@example.com"], data := 7,
                 sendAt := 3 }) :=
  ⟨by simp [Schedule, newScheduler],
    schedule_duplicate_spec _ "t1" "other" [] 0 9 _
      (by simp [Schedule, newScheduler])⟩

/-- The ids collected by the scan are exactly the keys of the due entries,
in order, whatever the render and transport collaborators do. -/
theorem scanTasks_dels {α : Type}
    (render : String → α → Option (String × String))
    (sendOk : List String → String → String → Bool) (t : ℚ) :
    ∀ (l : List (String × ScheduledTask α)) (lim : LimState)
      (q : List EmailTask),
      (scanTasks render sendOk t l lim q).2.2
        = (l.filter fun p => decide (p.2.sendAt ≤ t)).map Prod.fst := by
  intro l
  induction l with
  | nil =>
    intro lim q
    rfl
  | cons p rest ih =>
    intro lim q
    obtain ⟨id, task⟩ := p
    by_cases h : task.sendAt ≤ t
    · rcases hp : processTask render sendOk lim q t task with ⟨lim1, q1, o⟩
      rcases hs : scanTasks render sendOk t rest lim1 q1 with ⟨lim2, q2, dels⟩
      have hdels := ih lim1 q1
      rw [hs] at hdels
      simp only [scanTasks, if_pos h, hp, hs]
      rw [List.filter_cons_of_pos (by simpa using h)]
      simp only [List.map_cons]
      exact congrArg (id :: ·) hdels
    · simp only [scanTasks, if_neg h]
      rw [List.filter_cons_of_neg (by simpa using h)]
      exact ih lim q

/-- In a table with no duplicate keys, entries are determined by their
key. -/
theorem key_eq_of_nodup {α : Type} {l : List (String × ScheduledTask α)}
    (h : (l.map Prod.fst).Nodup) {a b : String × ScheduledTask α}
    (ha : a ∈ l) (hb : b ∈ l) (hk : a.1 = b.1) : a = b :=
  List.inj_on_of_nodup_map h ha hb hk

/-- C7: in one poll-loop tick of a live scheduler, the dispatched ids are
exactly the keys of the pending tasks whose `SendAt ≤ now` — each exactly
once, regardless of the render and transport outcomes — the retained table
is exactly the not-yet-due rest, and no entry with a due task's id
remains after the tick. -/
theorem processTasks_tick_spec {α : Type}
    (render : String → α → Option (String × String))
    (sendOk : List String → String → String → Bool)
    (s : SchedState α) (lim : LimState) (q : List EmailTask) (t : ℚ)
    (halive : s.loopAlive = true) (hctx : s.ctxCancelled = false)
    (hrun : s.isRunning = true) (hnodup : (s.tasks.map Prod.fst).Nodup) :
    (processTick render sendOk s lim q t).2.2.2
        = (s.tasks.filter fun p => decide (p.2.sendAt ≤ t)).map Prod.fst
    ∧ (processTick render sendOk s lim q t).1.tasks
        = s.tasks.filter (fun p => !decide (p.2.sendAt ≤ t))
    ∧ (∀ p ∈ s.tasks, p.2.sendAt ≤ t →
        ∀ p' ∈ (processTick render sendOk s lim q t).1.tasks,
          p'.1 ≠ p.1) := by
  rcases hs : scanTasks render sendOk t s.tasks lim q with ⟨lim1, q1, dels⟩
  have hdels : dels
      = (s.tasks.filter fun p => decide (p.2.sendAt ≤ t)).map Prod.fst := by
    have h' := scanTasks_dels render sendOk t s.tasks lim q
    rw [hs] at h'
    exact h'
  have hmem : ∀ p ∈ s.tasks, (p.1 ∈ dels ↔ p.2.sendAt ≤ t) := by
    intro p hp
    rw [hdels]
    constructor
    · intro hin
      obtain ⟨x, hx, hxk⟩ := List.mem_map.mp hin
      obtain ⟨hxl, hxd⟩ := List.mem_filter.mp hx
      have hxp : x = p := key_eq_of_nodup hnodup hxl hp hxk
      rw [hxp] at hxd
      simpa using hxd
    · intro hdue
      exact List.mem_map.mpr ⟨p,
        List.mem_filter.mpr ⟨hp, by simpa using hdue⟩, rfl⟩
  have hunfold : processTick render sendOk s lim q t =
      ({ s with tasks := s.tasks.filter fun p => decide (p.1 ∉ dels) },
       lim1, q1, dels) := by
    simp only [processTick, halive, hctx, hrun, hs]
    norm_num
  rw [hunfold]
  have hfilter : (s.tasks.filter fun p => decide (p.1 ∉ dels))
      = s.tasks.filter fun p => !decide (p.2.sendAt ≤ t) := by
    refine List.filter_congr ?_
    intro p hp
    by_cases hdue : p.2.sendAt ≤ t
    · have : p.1 ∈ dels := (hmem p hp).mpr hdue
      simp [this, hdue]
    · have : p.1 ∉ dels := fun hin => hdue ((hmem p hp).mp hin)
      simp [this, hdue]
  refine ⟨hdels, hfilter, ?_⟩
  intro p hp hdue p' hp' hkey
  rw [hfilter] at hp'
  obtain ⟨hp'l, hp'd⟩ := List.mem_filter.mp hp'
  have : p' = p := key_eq_of_nodup hnodup hp'l hp hkey
  rw [this] at hp'd
  simp [hdue] at hp'd

/-- C7 witness: hypotheses and conclusion on a running scheduler with one
pending task, polled at `t = 5`. -/
theorem processTasks_tick_spec_witness :
    (schedRun.loopAlive = true ∧ schedRun.ctxCancelled = false
      ∧ schedRun.isRunning = true ∧ (schedRun.tasks.map Prod.fst).Nodup)
    ∧ ((processTick renderDemo sendDemo schedRun limFull [] 5).2.2.2
        = (schedRun.tasks.filter fun p => decide (p.2.sendAt ≤ 5)).map
            Prod.fst
      ∧ (processTick renderDemo sendDemo schedRun limFull [] 5).1.tasks
        = schedRun.tasks.filter (fun p => !decide (p.2.sendAt ≤ 5))
      ∧ (∀ p ∈ schedRun.tasks, p.2.sendAt ≤ 5 →
          ∀ p' ∈ (processTick renderDemo sendDemo schedRun limFull []
              5).1.tasks, p'.1 ≠ p.1)) :=
  ⟨⟨by simp [schedRun, Start, Schedule, newScheduler],
    by simp [schedRun, Start, Schedule, newScheduler],
    by simp [schedRun, Start, Schedule, newScheduler],
    by simp [schedRun, Start, Schedule, newScheduler]⟩,
    processTasks_tick_spec renderDemo sendDemo schedRun limFull [] 5
      (by simp [schedRun, Start, Schedule, newScheduler])
      (by simp [schedRun, Start, Schedule, newScheduler])
      (by simp [schedRun, Start, Schedule, newScheduler])
      (by simp [schedRun, Start, Schedule, newScheduler])⟩

/-- C8: evidence of the restart defect at a concrete input. After
`Start; Stop; Start`, the `isRunning` flag is set again, but the freshly
spawned `processTasks` loop sees the already-cancelled context and exits
immediately (`loopAlive = false`), so a tick at `t = 5` dispatches nothing
even though the still-pending task `"t1"` has been due since time 3 —
contradicting "a Stop followed by a Start leaves the background loop
running and dispatching due work". -/
theorem scheduler_restart_loop_dead :
    schedRestarted.isRunning = true
    ∧ schedRestarted.loopAlive = false
    ∧ schedRestarted.tasks
        = [("t1", { id := "t1", template := "welcome",
                    recipients := ["a@example.com"], data := 7,
                    sendAt := 3 })]
    ∧ processTick renderDemo sendDemo schedRestarted limFull [] 5
        = (schedRestarted, limFull, [], []) := by
  refine ⟨rfl, rfl, rfl, ?_⟩
  rfl

end Runebird
